import Mathlib

/-!
Verification development for the multiple-point extraction notebook
`Data/Copernicus_download_multiple_points_Toolbox.ipynb`.

Coordinates, data values and timestamps are modelled as rationals.  A
gridded dataset is either 2-dimensional in space (`time × latitude ×
longitude`) or 3-dimensional (`time × depth × latitude × longitude`);
variable arrays are nested lists indexed in that axis order, matching the
xarray axis layout the notebook relies on.
-/

set_option allowUnsafeReducibility true in
attribute [semireducible] Rat.add Rat.sub Rat.mul Rat.div Rat.inv Rat.neg
  Rat.normalize Rat.maybeNormalize

namespace Copernicus

/-- A gridded dataset: axes plus named variable arrays indexed
`[time][latitude][longitude]` (2D) or `[time][depth][latitude][longitude]`
(3D).  Axes are stored under their canonical names; the rename loop of the
notebook is modelled on coordinate names by `renameAxes` below. -/
inductive Grid where
  | d2 (time lat lon : List ℚ) (vars : List (String × List (List (List ℚ))))
  | d3 (time depth lat lon : List ℚ) (vars : List (String × List (List (List (List ℚ)))))
  deriving DecidableEq

/-- One row of the input CSV: coordinates, optional depth (the `Depth`
column may be absent), a single date, and an interval given by `start` and
`stop`. -/
structure Query where
  lat : ℚ
  lon : ℚ
  depth : Option ℚ
  date : ℚ
  start : ℚ
  stop : ℚ
  deriving DecidableEq

/-- Axis coordinate values of a named dimension, mirroring
`dataset[dim_name].values` (`none` models the `KeyError` on an absent
dimension). -/
def axisCoords (g : Grid) (dim : String) : Option (List ℚ) :=
  match g with
  | .d2 time lat lon _ =>
      if dim = "time" then some time
      else if dim = "latitude" then some lat
      else if dim = "longitude" then some lon
      else none
  | .d3 time depth lat lon _ =>
      if dim = "time" then some time
      else if dim = "depth" then some depth
      else if dim = "latitude" then some lat
      else if dim = "longitude" then some lon
      else none

/-- Reindexing by a list of positions: `applyPerm p xs d = [xs[p 0], xs[p 1], …]`
with default `d` out of bounds.  Models fancy indexing of one array
dimension by an argsort result. -/
def applyPerm (p : List ℕ) (xs : List α) (d : α) : List α :=
  p.map (fun i => xs.getD i d)

/-- Stable argsort of the coordinate values, modelling the index permutation
computed by `xarray.Dataset.sortby(dim, ascending=True)`. -/
def argsortIdx (keys : List ℚ) : List ℕ :=
  List.insertionSort (fun i j => keys.getD i 0 ≤ keys.getD j 0) (List.range keys.length)

/-- Reindexing of every named variable array of a dataset by the same array
transformation, preserving the variable names. -/
def mapVals {α β : Type _} (f : α → β) (vars : List (String × α)) : List (String × β) :=
  vars.map (fun w => (w.1, f w.2))

/-- `dataset.sortby(dim_name, ascending=True)`: permutes the coordinate list
of `dim` into ascending order and reindexes every variable array along that
dimension with the same permutation.  An unrecognized dimension leaves the
dataset unchanged (the notebook only sorts `latitude` and `longitude`). -/
def sortbyAsc (g : Grid) (dim : String) : Grid :=
  match g with
  | .d2 time lat lon vars =>
      if dim = "time" then
        let p := argsortIdx time
        .d2 (applyPerm p time 0) lat lon (mapVals (fun a => applyPerm p a []) vars)
      else if dim = "latitude" then
        let p := argsortIdx lat
        .d2 time (applyPerm p lat 0) lon
          (mapVals (fun a => a.map (fun byT => applyPerm p byT [])) vars)
      else if dim = "longitude" then
        let p := argsortIdx lon
        .d2 time lat (applyPerm p lon 0)
          (mapVals (fun a => a.map (fun byT => byT.map (fun row => applyPerm p row 0))) vars)
      else g
  | .d3 time depth lat lon vars =>
      if dim = "time" then
        let p := argsortIdx time
        .d3 (applyPerm p time 0) depth lat lon (mapVals (fun a => applyPerm p a []) vars)
      else if dim = "depth" then
        let p := argsortIdx depth
        .d3 time (applyPerm p depth 0) lat lon
          (mapVals (fun a => a.map (fun byT => applyPerm p byT [])) vars)
      else if dim = "latitude" then
        let p := argsortIdx lat
        .d3 time depth (applyPerm p lat 0) lon
          (mapVals (fun a => a.map (fun byT => byT.map (fun byD => applyPerm p byD []))) vars)
      else if dim = "longitude" then
        let p := argsortIdx lon
        .d3 time depth lat (applyPerm p lon 0)
          (mapVals (fun a => a.map (fun byT => byT.map (fun byD => byD.map (fun row => applyPerm p row 0))))
            vars)
      else g

/-- The inversion test of `sort_dimension`:
`(coordinates[0] >= coordinates[:-1]).all()`.  `none` models the
`IndexError` raised by `coordinates[0]` on an empty axis. -/
def unsortedCheck (coords : List ℚ) : Option Bool :=
  match coords with
  | [] => none
  | c :: cs => some ((c :: cs).dropLast.all (fun x => decide (x ≤ c)))

/-- The notebook's `sort_dimension(dataset, dim_name)`: read the coordinates
of `dim_name`; if the inversion test fires, sort the dataset by that
dimension in ascending order, otherwise return it unchanged. -/
def sort_dimension (g : Grid) (dim : String) : Option Grid :=
  match axisCoords g dim with
  | none => none
  | some coords =>
      match unsortedCheck coords with
      | none => none
      | some true => some (sortbyAsc g dim)
      | some false => some g

/-- Canonicalization of one coordinate name, as done by the rename loop in
both download cells (`lon → longitude`, `lat → latitude`, all other names
pass through unchanged). -/
def canonName (s : String) : String :=
  if s = "lon" then "longitude" else if s = "lat" then "latitude" else s

/-- The rename loop applied to the coordinate names of a dataset. -/
def renameAxes (names : List String) : List String :=
  names.map canonName

/-- Axis normalization as performed once per dataset in both download cells:
`sort_dimension` on `latitude`, then on `longitude`.  `time` and `depth`
are never sorted. -/
def normalizeAxes (g : Grid) : Option Grid :=
  match sort_dimension g "latitude" with
  | none => none
  | some g1 => sort_dimension g1 "longitude"

/-- Nearest index on a coordinate axis, modelling pandas
`Index.get_indexer(..., method="nearest")` on a monotonically increasing
index, as invoked by `.sel(..., method="nearest")`: the index minimizing
the absolute distance to the target; a tie between the two neighbours is
resolved to the backfill (higher-index) side, because pandas keeps the pad
side only when it is strictly closer. -/
def nearestIdx (x : ℚ) : List ℚ → ℕ
  | [] => 0
  | [_] => 0
  | c :: c2 :: cs =>
      if |c - x| < |(c2 :: cs).getD (nearestIdx x (c2 :: cs)) 0 - x| then 0
      else nearestIdx x (c2 :: cs) + 1

/-- Variable lookup `dataset[var]`; `none` models the `KeyError` on a
variable absent from the dataset. -/
def lookupVar (vars : List (String × α)) (v : String) : Option α :=
  match vars with
  | [] => none
  | p :: rest => if p.1 = v then some p.2 else lookupVar rest v

/-- Scalar read of a 3-dimensional array at integer positions. -/
def valAt3 (a : List (List (List ℚ))) (t la lo : ℕ) : ℚ :=
  ((a.getD t []).getD la []).getD lo 0

/-- Scalar read of a 4-dimensional array at integer positions. -/
def valAt4 (a : List (List (List (List ℚ)))) (t d la lo : ℕ) : ℚ :=
  (((a.getD t []).getD d []).getD la []).getD lo 0

/-- Per-pair failures of the extraction cells.  `missingDepthSpec` models the
`KeyError` raised when the 3D branch reads the absent `Depth` column;
`unknownVariable v` models the `KeyError` of `dataset[v]`. -/
inductive SampleError where
  | missingDepthSpec
  | unknownVariable (v : String)
  deriving DecidableEq

/-- Body of the temporal-points loop for one variable and one CSV row:
`float(dataset[var].sel(time=Date, [depth=Depth,] method="nearest")
.sel(latitude=Latitude, longitude=Longitude, method="nearest"))`.
In the 3D branch the `Depth` column is read when the row iterator is built,
so a missing depth fails before the variable lookup; the 2D branch never
touches the depth field. -/
def sampleVar (g : Grid) (v : String) (q : Query) : Except SampleError ℚ :=
  match g with
  | .d2 time lat lon vars =>
      match lookupVar vars v with
      | none => .error (.unknownVariable v)
      | some a =>
          .ok (valAt3 a (nearestIdx q.date time) (nearestIdx q.lat lat) (nearestIdx q.lon lon))
  | .d3 time depth lat lon vars =>
      match q.depth with
      | none => .error .missingDepthSpec
      | some qd =>
          match lookupVar vars v with
          | none => .error (.unknownVariable v)
          | some a =>
              .ok (valAt4 a (nearestIdx q.date time) (nearestIdx qd depth)
                    (nearestIdx q.lat lat) (nearestIdx q.lon lon))

/-- Left-to-right effectful map, the semantics of a Python comprehension
whose body may raise: the first failure aborts the whole construction. -/
def collectE (f : α → Except ε β) : List α → Except ε (List β)
  | [] => .ok []
  | a :: as =>
      match f a with
      | .error e => .error e
      | .ok b =>
          match collectE f as with
          | .error e => .error e
          | .ok bs => .ok (b :: bs)

/-- The `time` axis of a dataset. -/
def timeAxis (g : Grid) : List ℚ :=
  match g with
  | .d2 t _ _ _ => t
  | .d3 t _ _ _ _ => t

/-- The `latitude` axis of a dataset. -/
def latAxis (g : Grid) : List ℚ :=
  match g with
  | .d2 _ la _ _ => la
  | .d3 _ _ la _ _ => la

/-- The `longitude` axis of a dataset. -/
def lonAxis (g : Grid) : List ℚ :=
  match g with
  | .d2 _ _ lo _ => lo
  | .d3 _ _ _ lo _ => lo

/-- The dataframe written by the temporal-points cell for one dataset: the
input rows, one downloaded column per variable, and the `Date_dataset`
column holding the dataset time coordinate matched for each row. -/
structure TemporalTable where
  queries : List Query
  varColumns : List (String × List ℚ)
  dateDataset : List ℚ
  deriving DecidableEq

/-- One downloaded column of the temporal-points cell: the list
comprehension over CSV rows for a single variable, tagged with the
variable's name. -/
def varColumnE (g : Grid) (qs : List Query) (v : String) :
    Except SampleError (String × List ℚ) :=
  match collectE (fun q => sampleVar g v q) qs with
  | .error e => .error e
  | .ok col => .ok (v, col)

/-- The temporal-points cell for one dataset: variable columns are built
variable-by-variable, row-by-row, with no exception handling, then the
`Date_dataset` column is appended from
`dataset.sel(time=date, method="nearest").time.values`. -/
def runTemporal (g : Grid) (vars : List String) (qs : List Query) :
    Except SampleError TemporalTable :=
  match collectE (varColumnE g qs) vars with
  | .error e => .error e
  | .ok cols =>
      .ok ⟨qs, cols, qs.map (fun q => (timeAxis g).getD (nearestIdx q.date (timeAxis g)) 0)⟩

/-- Index range selected by `.sel(time=slice(start, end))` on the time axis,
modelling pandas label slicing on a monotonic increasing index via its two
searchsorted bounds: positions from the count of labels strictly below
`start` up to (exclusively) the count of labels at most `end`. -/
def sliceIdx (time : List ℚ) (s e : ℚ) : List ℕ :=
  List.range' (time.countP (fun t => decide (t < s)))
    (time.countP (fun t => decide (t ≤ e)) - time.countP (fun t => decide (t < s)))

/-- The per-point dataset written by the timeseries cell: the selected time
coordinates and one column per variable. -/
structure SeriesTable where
  times : List ℚ
  columns : List (String × List ℚ)
  deriving DecidableEq

/-- Resolution of one requested variable by `dataset[variables]`: the name
paired with its array, or the `KeyError` for an absent variable. -/
def findVarE (gvars : List (String × α)) (v : String) : Except SampleError (String × α) :=
  match lookupVar gvars v with
  | none => .error (.unknownVariable v)
  | some a => .ok (v, a)

/-- Body of the timeseries loop for one CSV row:
`dataset[variables].sel(time=slice(Start, End)).sel(latitude=…,
longitude=…, [depth=…,] method="nearest")`, flattened to a table.  In the
3D branch the `Depth` column is read when the row iterator is built, so a
missing depth fails before the variable lookups. -/
def sampleSeries (g : Grid) (vars : List String) (q : Query) :
    Except SampleError SeriesTable :=
  match g with
  | .d2 time lat lon gvars =>
      match collectE (findVarE gvars) vars with
      | .error e => .error e
      | .ok found =>
          let idxs := sliceIdx time q.start q.stop
          let lai := nearestIdx q.lat lat
          let loi := nearestIdx q.lon lon
          .ok ⟨idxs.map (fun i => time.getD i 0),
               found.map (fun va => (va.1, idxs.map (fun ti => valAt3 va.2 ti lai loi)))⟩
  | .d3 time depth lat lon gvars =>
      match q.depth with
      | none => .error .missingDepthSpec
      | some qd =>
          match collectE (findVarE gvars) vars with
          | .error e => .error e
          | .ok found =>
              let idxs := sliceIdx time q.start q.stop
              let di := nearestIdx qd depth
              let lai := nearestIdx q.lat lat
              let loi := nearestIdx q.lon lon
              .ok ⟨idxs.map (fun i => time.getD i 0),
                   found.map (fun va => (va.1, idxs.map (fun ti => valAt4 va.2 ti di lai loi)))⟩

/-- Exact index of a coordinate value in an axis (first position holding the
value), used to state the physical round-trip property of normalization. -/
def idxOfQ (x : ℚ) : List ℚ → Option ℕ
  | [] => none
  | c :: cs => if c = x then some 0 else (idxOfQ x cs).map (· + 1)

/-- Sample a variable at exact coordinate values (time, optional depth,
latitude, longitude), defined exactly when every value is a grid
coordinate: the pure-reordering sense in which normalization preserves
data. -/
def valueAt (g : Grid) (v : String) (t : ℚ) (d : Option ℚ) (la lo : ℚ) : Option ℚ :=
  match g with
  | .d2 time lat lon vars =>
      (lookupVar vars v).bind (fun a =>
        (idxOfQ t time).bind (fun ti =>
          (idxOfQ la lat).bind (fun lai =>
            (idxOfQ lo lon).map (fun loi => valAt3 a ti lai loi))))
  | .d3 time depth lat lon vars =>
      d.bind (fun dv =>
        (lookupVar vars v).bind (fun a =>
          (idxOfQ t time).bind (fun ti =>
            (idxOfQ dv depth).bind (fun di =>
              (idxOfQ la lat).bind (fun lai =>
                (idxOfQ lo lon).map (fun loi => valAt4 a ti di lai loi))))))

/-- Dataset/output pairing of the temporal-points cell: `for dataset_id,
output_name in zip(list_datasetID, output_names)` opens each entry's own
dataset.  Returns, per output name, the dataset id actually opened. -/
def temporalOpenedIds (entries : List (String × String)) : List (String × String) :=
  entries.map (fun e => (e.2, e.1))

/-- The global `dataset_id` left behind by the temporal-points cell: the
last id of the list (`none` when that cell never ran). -/
def globalIdAfterTemporal (entries : List (String × String)) : Option String :=
  (entries.map (fun e => e.1)).getLast?

/-- Dataset/output pairing of the timeseries cell.  Its loop binds
`datset_id` (a typo) but calls `open_dataset(dataset_id = dataset_id)` with
the free global `dataset_id`, so every iteration opens the dataset named by
the stale global; with no global bound, the first iteration raises
`NameError` (modelled as `none`). -/
def timeseriesOpenedIds (globalId : Option String) (entries : List (String × String)) :
    Option (List (String × String)) :=
  match entries, globalId with
  | [], _ => some []
  | _ :: _, none => none
  | es, some gid => some (es.map (fun e => (e.2, gid)))

/-- Shape discipline of a dataset: every variable array's extents match the
axis lengths in declared order (the Grid Dataset invariant of the data
model). -/
def wellFormed : Grid → Bool
  | .d2 time lat lon vars =>
      vars.all (fun v => v.2.length == time.length &&
        v.2.all (fun byT => byT.length == lat.length &&
          byT.all (fun row => row.length == lon.length)))
  | .d3 time depth lat lon vars =>
      vars.all (fun v => v.2.length == time.length &&
        v.2.all (fun byT => byT.length == depth.length &&
          byT.all (fun byD => byD.length == lat.length &&
            byD.all (fun row => row.length == lon.length))))

/-- Whether a named variable is present in the dataset's variable set. -/
def hasVar (g : Grid) (v : String) : Bool :=
  match g with
  | .d2 _ _ _ vars => (lookupVar vars v).isSome
  | .d3 _ _ _ _ vars => (lookupVar vars v).isSome

/-- Whether the dataset declares a `depth` axis (`"depth" in dataset.dims`). -/
def hasDepthAxis (g : Grid) : Bool :=
  match g with
  | .d2 _ _ _ _ => false
  | .d3 _ _ _ _ _ => true

/-! Concrete datasets and queries used to instantiate the theorems. -/

/-- The spec's concrete normalization scenario: descending latitude
`[42, 41, 40]`, longitude `[5, 6, 7]`, variable `uo` with value `3/2` at
`(lat = 42, lon = 6)` (time axis a single grid step). -/
def gScen : Grid :=
  .d2 [0] [42, 41, 40] [5, 6, 7] [("uo", [[[1, 3/2, 2], [4, 5, 6], [7, 8, 9]]])]

/-- The normal form of `gScen`: latitude ascending, rows reindexed by the
same permutation. -/
def gScenNorm : Grid :=
  .d2 [0] [40, 41, 42] [5, 6, 7] [("uo", [[[7, 8, 9], [4, 5, 6], [1, 3/2, 2]]])]

/-- A dataset whose latitude axis `[1, 3, 2]` is non-ascending but escapes
the inversion test of `sort_dimension` (its first coordinate is not
greater-or-equal to all the others). -/
def gCex : Grid := .d2 [0] [1, 3, 2] [5] [("uo", [[[10], [30], [20]]])]

/-- A small well-formed 2D dataset with ascending axes. -/
def g2w : Grid :=
  .d2 [0, 1, 2, 3, 4] [40, 41, 42] [5, 6, 7]
    [("uo", List.replicate 5 [[1, 2, 3], [4, 5, 6], [7, 8, 9]]),
     ("vo", List.replicate 5 [[10, 20, 30], [40, 50, 60], [70, 80, 90]])]

/-- A small well-formed 3D dataset with ascending axes. -/
def g3w : Grid :=
  .d3 [0, 1] [0, 2] [40, 41] [5, 6]
    [("uo", List.replicate 2 (List.replicate 2 [[1, 2], [3, 4]]))]

/-- A query row with every column present. -/
def qw : Query :=
  { lat := 203/5, lon := 31/5, depth := some 1, date := 5, start := 1, stop := 3 }

/-- A query row whose `Depth` column is absent. -/
def qNoDepth : Query := { qw with depth := none }

/-- A query far outside the latitude span of the small datasets. -/
def qFar : Query := { qw with lat := 100 }

/-- Ten query rows, as in the spec's batch scenario. -/
def qs10 : List Query := List.replicate 10 qw

/-- The dataframe produced by the temporal-points cell on `g2w` for the
queries `[qw, qFar]` and variables `uo`, `vo`. -/
def tblw : TemporalTable :=
  ⟨[qw, qFar], [("uo", [5, 8]), ("vo", [50, 80])], [4, 4]⟩

deriving instance DecidableEq for Except

/-! Helper lemmas about the embedded operations. -/

theorem nearestIdx_lt_length (x : ℚ) :
    ∀ (cs : List ℚ), cs ≠ [] → nearestIdx x cs < cs.length := by
  intro cs
  induction cs with
  | nil => intro h; exact absurd rfl h
  | cons c rest ih =>
    intro _
    cases rest with
    | nil => simp [nearestIdx]
    | cons c2 cs2 =>
      simp only [nearestIdx]
      split
      · simp
      · have h2 := ih (by simp)
        simpa using Nat.succ_lt_succ h2

theorem nearestIdx_min (x : ℚ) :
    ∀ (cs : List ℚ), ∀ i < cs.length,
      |cs.getD (nearestIdx x cs) 0 - x| ≤ |cs.getD i 0 - x| := by
  intro cs
  induction cs with
  | nil => intro i hi; simp at hi
  | cons c rest ih =>
    intro i hi
    cases rest with
    | nil =>
      match i, hi with
      | 0, _ => exact le_refl _
    | cons c2 cs2 =>
      simp only [nearestIdx]
      split
      · rename_i h
        match i with
        | 0 => simp
        | i' + 1 =>
          have hm := ih i' (by simpa using hi)
          simp only [List.getD_cons_zero, List.getD_cons_succ]
          exact le_trans (le_of_lt h) hm
      · rename_i h
        match i with
        | 0 =>
          simp only [List.getD_cons_zero, List.getD_cons_succ]
          exact le_of_not_lt h
        | i' + 1 =>
          have hm := ih i' (by simpa using hi)
          simpa using hm

theorem nearestIdx_rightmost (x : ℚ) :
    ∀ (cs : List ℚ), ∀ i < cs.length,
      |cs.getD i 0 - x| ≤ |cs.getD (nearestIdx x cs) 0 - x| → i ≤ nearestIdx x cs := by
  intro cs
  induction cs with
  | nil => intro i hi; simp at hi
  | cons c rest ih =>
    intro i hi
    cases rest with
    | nil =>
      match i, hi with
      | 0, _ => intro _; exact Nat.le_refl 0
    | cons c2 cs2 =>
      simp only [nearestIdx]
      split
      · rename_i h
        match i with
        | 0 => intro _; exact Nat.le_refl 0
        | i' + 1 =>
          intro hle
          exfalso
          have hm := nearestIdx_min x (c2 :: cs2) i' (by simpa using hi)
          simp only [List.getD_cons_zero, List.getD_cons_succ] at hle
          exact absurd (lt_of_lt_of_le h (le_trans hm hle)) (lt_irrefl _)
      · rename_i h
        match i with
        | 0 => intro _; exact Nat.zero_le _
        | i' + 1 =>
          intro hle
          simp only [List.getD_cons_succ] at hle
          exact Nat.succ_le_succ (ih i' (by simpa using hi) hle)

theorem nearestIdx_exact (x : ℚ) (cs : List ℚ) (hnd : cs.Nodup) (i : ℕ)
    (hi : i < cs.length) (hx : cs.getD i 0 = x) : nearestIdx x cs = i := by
  have hne : cs ≠ [] := by
    intro h
    rw [h] at hi
    simp at hi
  have h1 := nearestIdx_lt_length x cs hne
  have h2 := nearestIdx_min x cs i hi
  rw [hx, sub_self, abs_zero] at h2
  have h3 : cs.getD (nearestIdx x cs) 0 = x := by
    have h4 : |cs.getD (nearestIdx x cs) 0 - x| = 0 := le_antisymm h2 (abs_nonneg _)
    have h5 := abs_eq_zero.mp h4
    linarith [sub_eq_zero.mp h5]
  rw [List.getD_eq_getElem _ _ h1] at h3
  rw [List.getD_eq_getElem _ _ hi] at hx
  exact (List.Nodup.getElem_inj_iff hnd).mp (h3.trans hx.symm)

theorem nearestIdx_ge_all (x : ℚ) :
    ∀ (cs : List ℚ), cs ≠ [] → cs.Sorted (· ≤ ·) → (∀ c ∈ cs, c ≤ x) →
      nearestIdx x cs = cs.length - 1 := by
  intro cs
  induction cs with
  | nil => intro h; exact absurd rfl h
  | cons c rest ih =>
    intro _ hsort hall
    cases rest with
    | nil => simp [nearestIdx]
    | cons c2 cs2 =>
      have hsc := List.sorted_cons.mp hsort
      have hj := ih (by simp) hsc.2 (fun c' hc' => hall c' (List.mem_cons_of_mem _ hc'))
      have hjlt : nearestIdx x (c2 :: cs2) < (c2 :: cs2).length :=
        nearestIdx_lt_length x _ (by simp)
      have hmem : (c2 :: cs2).getD (nearestIdx x (c2 :: cs2)) 0 ∈ c2 :: cs2 := by
        rw [List.getD_eq_getElem _ _ hjlt]
        exact List.getElem_mem _
      have hcl : c ≤ (c2 :: cs2).getD (nearestIdx x (c2 :: cs2)) 0 := hsc.1 _ hmem
      have hlx : (c2 :: cs2).getD (nearestIdx x (c2 :: cs2)) 0 ≤ x :=
        hall _ (List.mem_cons_of_mem _ hmem)
      have hcx : c ≤ x := hall c (List.mem_cons_self c _)
      simp only [nearestIdx]
      rw [if_neg (by
        rw [abs_of_nonpos (by linarith), abs_of_nonpos (by linarith)]
        intro hlt
        linarith)]
      rw [hj]
      simp

theorem collectE_forall2 {α β ε : Type _} {f : α → Except ε β} :
    ∀ {l : List α} {bs : List β}, collectE f l = .ok bs →
      List.Forall₂ (fun a b => f a = .ok b) l bs := by
  intro l
  induction l with
  | nil =>
    intro bs h
    simp only [collectE] at h
    injection h with h1
    rw [← h1]
    exact List.Forall₂.nil
  | cons a as ih =>
    intro bs h
    simp only [collectE] at h
    cases hfa : f a with
    | error e => rw [hfa] at h; cases h
    | ok b =>
      rw [hfa] at h
      cases hrest : collectE f as with
      | error e => rw [hrest] at h; cases h
      | ok bs' =>
        rw [hrest] at h
        injection h with h1
        rw [← h1]
        exact List.Forall₂.cons hfa (ih hrest)

theorem collectE_ok_of_forall {α β ε : Type _} {f : α → Except ε β} :
    ∀ {l : List α}, (∀ a ∈ l, ∃ b, f a = .ok b) → ∃ bs, collectE f l = .ok bs := by
  intro l
  induction l with
  | nil => intro _; exact ⟨[], rfl⟩
  | cons a as ih =>
    intro h
    obtain ⟨b, hb⟩ := h a (List.mem_cons_self a _)
    obtain ⟨bs, hbs⟩ := ih (fun a' ha' => h a' (List.mem_cons_of_mem _ ha'))
    exact ⟨b :: bs, by simp only [collectE]; rw [hb, hbs]⟩

theorem collectE_error_of_mem {α β ε : Type _} {f : α → Except ε β} :
    ∀ {l : List α} {a : α}, a ∈ l → (∃ e, f a = .error e) →
      ∃ e, collectE f l = .error e := by
  intro l
  induction l with
  | nil => intro a ha; simp at ha
  | cons a0 as ih =>
    intro a ha he
    rcases List.mem_cons.mp ha with rfl | ha'
    · obtain ⟨e, hfe⟩ := he
      exact ⟨e, by simp only [collectE]; rw [hfe]⟩
    · cases hfa : f a0 with
      | error e0 => exact ⟨e0, by simp only [collectE]; rw [hfa]⟩
      | ok b =>
        obtain ⟨e, hce⟩ := ih ha' he
        exact ⟨e, by simp only [collectE]; rw [hfa, hce]⟩

theorem forall2_exists_left {α β : Type _} {R : α → β → Prop} :
    ∀ {l : List α} {bs : List β}, List.Forall₂ R l bs → ∀ b ∈ bs, ∃ a ∈ l, R a b := by
  intro l bs h
  induction h with
  | nil => intro b hb; simp at hb
  | cons h1 _ ih =>
    intro b hb
    rcases List.mem_cons.mp hb with rfl | hb'
    · exact ⟨_, List.mem_cons_self _ _, h1⟩
    · obtain ⟨a, ha, hr⟩ := ih b hb'
      exact ⟨a, List.mem_cons_of_mem _ ha, hr⟩

theorem map_eq_of_forall2 {α β : Type _} {R : α → β → Prop} {g : β → α} :
    ∀ {l : List α} {bs : List β}, List.Forall₂ R l bs →
      (∀ a b, R a b → g b = a) → bs.map g = l := by
  intro l bs h
  induction h with
  | nil => intro _; rfl
  | cons h1 _ ih => intro hg; simp [hg _ _ h1, ih hg]

theorem varColumnE_ok {g : Grid} {qs : List Query} {v : String}
    {c : String × List ℚ} (h : varColumnE g qs v = .ok c) :
    c.1 = v ∧ collectE (fun q => sampleVar g v q) qs = .ok c.2 := by
  unfold varColumnE at h
  cases hin : collectE (fun q => sampleVar g v q) qs with
  | error e => rw [hin] at h; cases h
  | ok col =>
    rw [hin] at h
    injection h with h1
    subst h1
    exact ⟨rfl, rfl⟩

theorem getD_map_lt {α β : Type _} (f : α → β) {l : List α} {i : ℕ}
    (h : i < l.length) (d : β) (d' : α) : (l.map f).getD i d = f (l.getD i d') := by
  rw [List.getD_eq_getElem _ _ (by simpa using h), List.getD_eq_getElem _ _ h,
    List.getElem_map]

theorem argsort_perm (keys : List ℚ) :
    List.Perm (argsortIdx keys) (List.range keys.length) :=
  List.perm_insertionSort _ _

theorem map_getD_range {α : Type _} (xs : List α) (d : α) :
    (List.range xs.length).map (fun i => xs.getD i d) = xs := by
  induction xs with
  | nil => rfl
  | cons x xs ih =>
    rw [List.length_cons, List.range_succ_eq_map, List.map_cons, List.map_map]
    have h2 : (List.range xs.length).map ((fun i => (x :: xs).getD i d) ∘ Nat.succ)
        = (List.range xs.length).map (fun i => xs.getD i d) := by
      apply List.map_congr_left
      intro i _
      simp
    rw [h2, ih]
    simp

theorem applyPerm_range {α : Type _} (xs : List α) (d : α) :
    applyPerm (List.range xs.length) xs d = xs :=
  map_getD_range xs d

theorem applyPerm_perm {α : Type _} {p : List ℕ} {xs : List α}
    (hp : List.Perm p (List.range xs.length)) (d : α) :
    List.Perm (applyPerm p xs d) xs := by
  have h := hp.map (fun i => xs.getD i d)
  rw [map_getD_range] at h
  exact h

theorem applyPerm_getD {α : Type _} {p : List ℕ} (xs : List α) (d : α) {j : ℕ}
    (hj : j < p.length) : (applyPerm p xs d).getD j d = xs.getD (p.getD j 0) d :=
  getD_map_lt _ hj d 0

theorem argsort_pairwise (keys : List ℚ) :
    (argsortIdx keys).Pairwise (fun i j => keys.getD i 0 ≤ keys.getD j 0) := by
  haveI : IsTotal ℕ (fun i j => keys.getD i 0 ≤ keys.getD j 0) :=
    ⟨fun a b => le_total _ _⟩
  haveI : IsTrans ℕ (fun i j => keys.getD i 0 ≤ keys.getD j 0) :=
    ⟨fun a b c hab hbc => le_trans hab hbc⟩
  exact List.sorted_insertionSort _ _

theorem sortKeys_sorted_le (keys : List ℚ) :
    (applyPerm (argsortIdx keys) keys 0).Sorted (· ≤ ·) :=
  (argsort_pairwise keys).map _ (fun _ _ h => h)

theorem sortKeys_sorted_lt {keys : List ℚ} (hnd : keys.Nodup) :
    (applyPerm (argsortIdx keys) keys 0).Sorted (· < ·) :=
  (sortKeys_sorted_le keys).lt_of_le
    (((applyPerm_perm (argsort_perm keys) 0).symm).nodup hnd)

theorem sorted_getD_le {keys : List ℚ} (h : keys.Sorted (· ≤ ·)) {i j : ℕ}
    (hij : i < j) (hj : j < keys.length) : keys.getD i 0 ≤ keys.getD j 0 := by
  have hi : i < keys.length := lt_trans hij hj
  rw [List.getD_eq_getElem _ _ hi, List.getD_eq_getElem _ _ hj]
  exact List.pairwise_iff_getElem.mp h i j hi hj hij

theorem argsort_of_sorted {keys : List ℚ} (h : keys.Sorted (· ≤ ·)) :
    argsortIdx keys = List.range keys.length := by
  unfold argsortIdx
  apply List.Sorted.insertionSort_eq
  apply List.Pairwise.imp_of_mem ?_ (List.pairwise_lt_range keys.length)
  intro i j hi hj hij
  exact sorted_getD_le h hij (List.mem_range.mp hj)

theorem idxOfQ_eq_some {x : ℚ} :
    ∀ {l : List ℚ} {i : ℕ}, idxOfQ x l = some i → i < l.length ∧ l.getD i 0 = x := by
  intro l
  induction l with
  | nil => intro i h; cases h
  | cons c cs ih =>
    intro i h
    simp only [idxOfQ] at h
    by_cases hc : c = x
    · rw [if_pos hc] at h
      injection h with h1
      subst h1
      exact ⟨by simp, hc⟩
    · rw [if_neg hc] at h
      cases hrec : idxOfQ x cs with
      | none => rw [hrec] at h; cases h
      | some i' =>
        rw [hrec] at h
        injection h with h1
        subst h1
        obtain ⟨hlt, hval⟩ := ih hrec
        exact ⟨by simpa using hlt, by simpa using hval⟩

theorem idxOfQ_eq_none_iff {x : ℚ} :
    ∀ {l : List ℚ}, idxOfQ x l = none ↔ x ∉ l := by
  intro l
  induction l with
  | nil => simp [idxOfQ]
  | cons c cs ih =>
    simp only [idxOfQ, List.mem_cons]
    by_cases hc : c = x
    · simp [hc]
    · rw [if_neg hc]
      simp only [Option.map_eq_none', ih]
      constructor
      · intro h
        exact fun hor => hor.elim (fun he => hc he.symm) h
      · intro h
        exact fun hm => h (Or.inr hm)

theorem idxOfQ_of_mem {x : ℚ} {l : List ℚ} (h : x ∈ l) : ∃ i, idxOfQ x l = some i := by
  cases hl : idxOfQ x l with
  | none => exact absurd h (idxOfQ_eq_none_iff.mp hl)
  | some i => exact ⟨i, rfl⟩

theorem idxOfQ_applyPerm_some {keys : List ℚ} (hnd : keys.Nodup) {p : List ℕ}
    (hp : List.Perm p (List.range keys.length)) {x : ℚ} {j : ℕ}
    (h : idxOfQ x (applyPerm p keys 0) = some j) :
    j < p.length ∧ idxOfQ x keys = some (p.getD j 0) := by
  obtain ⟨hj, hx⟩ := idxOfQ_eq_some h
  have hjp : j < p.length := by simpa [applyPerm] using hj
  rw [applyPerm_getD keys 0 hjp] at hx
  have hmem : p.getD j 0 ∈ p := by
    rw [List.getD_eq_getElem _ _ hjp]
    exact List.getElem_mem _
  have hplt : p.getD j 0 < keys.length :=
    List.mem_range.mp (hp.mem_iff.mp hmem)
  have hxm : x ∈ keys := by
    rw [← hx, List.getD_eq_getElem _ _ hplt]
    exact List.getElem_mem _
  obtain ⟨i0, hi0⟩ := idxOfQ_of_mem hxm
  obtain ⟨hi0l, hi0x⟩ := idxOfQ_eq_some hi0
  have heq : i0 = p.getD j 0 := by
    rw [List.getD_eq_getElem _ _ hi0l] at hi0x
    rw [List.getD_eq_getElem _ _ hplt] at hx
    exact (List.Nodup.getElem_inj_iff hnd).mp (hi0x.trans hx.symm)
  rw [hi0, heq]
  exact ⟨hjp, rfl⟩

theorem idxOfQ_applyPerm_none {keys : List ℚ} {p : List ℕ}
    (hp : List.Perm p (List.range keys.length)) {x : ℚ}
    (h : idxOfQ x (applyPerm p keys 0) = none) : idxOfQ x keys = none := by
  rw [idxOfQ_eq_none_iff] at h ⊢
  intro hm
  exact h (((applyPerm_perm hp 0).mem_iff).mpr hm)

theorem lookupVar_mapVals {α β : Type _} (vars : List (String × α)) (f : α → β)
    (v : String) : lookupVar (mapVals f vars) v = (lookupVar vars v).map f := by
  induction vars with
  | nil => rfl
  | cons w ws ih =>
    simp only [mapVals, List.map_cons, lookupVar]
    by_cases hw : w.1 = v
    · rw [if_pos hw, if_pos hw]
      rfl
    · rw [if_neg hw, if_neg hw]
      exact ih

theorem map_id_of_mem {α : Type _} {f : α → α} :
    ∀ {l : List α}, (∀ a ∈ l, f a = a) → l.map f = l := by
  intro l
  induction l with
  | nil => intro _; rfl
  | cons a as ih =>
    intro h
    rw [List.map_cons, h a (List.mem_cons_self a _),
      ih (fun a' ha' => h a' (List.mem_cons_of_mem _ ha'))]

theorem axisCoords_lat (g : Grid) : axisCoords g "latitude" = some (latAxis g) := by
  cases g <;> rfl

theorem axisCoords_lon (g : Grid) : axisCoords g "longitude" = some (lonAxis g) := by
  cases g <;> rfl

theorem sortbyAsc_d2_lat (time lat lon : List ℚ)
    (vars : List (String × List (List (List ℚ)))) :
    sortbyAsc (.d2 time lat lon vars) "latitude" =
      .d2 time (applyPerm (argsortIdx lat) lat 0) lon
        (mapVals (fun a => a.map (fun byT => applyPerm (argsortIdx lat) byT [])) vars) :=
  rfl

theorem sortbyAsc_d2_lon (time lat lon : List ℚ)
    (vars : List (String × List (List (List ℚ)))) :
    sortbyAsc (.d2 time lat lon vars) "longitude" =
      .d2 time lat (applyPerm (argsortIdx lon) lon 0)
        (mapVals (fun a => a.map (fun byT => byT.map
          (fun row => applyPerm (argsortIdx lon) row 0))) vars) :=
  rfl

theorem sortbyAsc_d3_lat (time depth lat lon : List ℚ)
    (vars : List (String × List (List (List (List ℚ))))) :
    sortbyAsc (.d3 time depth lat lon vars) "latitude" =
      .d3 time depth (applyPerm (argsortIdx lat) lat 0) lon
        (mapVals (fun a => a.map (fun byT => byT.map
          (fun byD => applyPerm (argsortIdx lat) byD []))) vars) :=
  rfl

theorem sortbyAsc_d3_lon (time depth lat lon : List ℚ)
    (vars : List (String × List (List (List (List ℚ))))) :
    sortbyAsc (.d3 time depth lat lon vars) "longitude" =
      .d3 time depth lat (applyPerm (argsortIdx lon) lon 0)
        (mapVals (fun a => a.map (fun byT => byT.map (fun byD => byD.map
          (fun row => applyPerm (argsortIdx lon) row 0)))) vars) :=
  rfl

theorem valAt3_lat_perm (a : List (List (List ℚ))) (p : List ℕ) (ti j loi : ℕ)
    (hj : j < p.length) :
    valAt3 (a.map (fun byT => applyPerm p byT [])) ti j loi =
      valAt3 a ti (p.getD j 0) loi := by
  unfold valAt3
  by_cases hti : ti < a.length
  · rw [getD_map_lt _ hti [] [], applyPerm_getD _ _ hj]
  · have hge := not_lt.mp hti
    rw [List.getD_eq_default (a.map (fun byT => applyPerm p byT [])) []
      (by simpa using hge), List.getD_eq_default a [] hge]
    simp

theorem valAt3_lon_perm (a : List (List (List ℚ))) (p : List ℕ) (ti lai j : ℕ)
    (hj : j < p.length) :
    valAt3 (a.map (fun byT => byT.map (fun row => applyPerm p row 0))) ti lai j =
      valAt3 a ti lai (p.getD j 0) := by
  unfold valAt3
  by_cases hti : ti < a.length
  · rw [getD_map_lt _ hti [] []]
    by_cases hla : lai < (a.getD ti []).length
    · rw [getD_map_lt _ hla [] []]
      exact applyPerm_getD _ _ hj
    · have hge := not_lt.mp hla
      rw [List.getD_eq_default ((a.getD ti []).map (fun row => applyPerm p row 0)) []
        (by simpa using hge), List.getD_eq_default (a.getD ti []) [] hge]
      simp
  · have hge := not_lt.mp hti
    rw [List.getD_eq_default (a.map (fun byT => byT.map (fun row => applyPerm p row 0)))
      [] (by simpa using hge), List.getD_eq_default a [] hge]
    simp

theorem valAt4_lat_perm (a : List (List (List (List ℚ)))) (p : List ℕ)
    (ti di j loi : ℕ) (hj : j < p.length) :
    valAt4 (a.map (fun byT => byT.map (fun byD => applyPerm p byD []))) ti di j loi =
      valAt4 a ti di (p.getD j 0) loi := by
  unfold valAt4
  by_cases hti : ti < a.length
  · rw [getD_map_lt _ hti [] []]
    by_cases hdi : di < (a.getD ti []).length
    · rw [getD_map_lt _ hdi [] [], applyPerm_getD _ _ hj]
    · have hge := not_lt.mp hdi
      rw [List.getD_eq_default ((a.getD ti []).map (fun byD => applyPerm p byD [])) []
        (by simpa using hge), List.getD_eq_default (a.getD ti []) [] hge]
      simp
  · have hge := not_lt.mp hti
    rw [List.getD_eq_default (a.map (fun byT => byT.map (fun byD => applyPerm p byD [])))
      [] (by simpa using hge), List.getD_eq_default a [] hge]
    simp

theorem valAt4_lon_perm (a : List (List (List (List ℚ)))) (p : List ℕ)
    (ti di lai j : ℕ) (hj : j < p.length) :
    valAt4 (a.map (fun byT => byT.map (fun byD => byD.map
        (fun row => applyPerm p row 0)))) ti di lai j =
      valAt4 a ti di lai (p.getD j 0) := by
  unfold valAt4
  by_cases hti : ti < a.length
  · rw [getD_map_lt _ hti [] []]
    by_cases hdi : di < (a.getD ti []).length
    · rw [getD_map_lt _ hdi [] []]
      by_cases hla : lai < ((a.getD ti []).getD di []).length
      · rw [getD_map_lt _ hla [] []]
        exact applyPerm_getD _ _ hj
      · have hge := not_lt.mp hla
        rw [List.getD_eq_default (((a.getD ti []).getD di []).map
          (fun row => applyPerm p row 0)) [] (by simpa using hge),
          List.getD_eq_default ((a.getD ti []).getD di []) [] hge]
        simp
    · have hge := not_lt.mp hdi
      rw [List.getD_eq_default ((a.getD ti []).map (fun byD => byD.map
        (fun row => applyPerm p row 0))) [] (by simpa using hge),
        List.getD_eq_default (a.getD ti []) [] hge]
      simp
  · have hge := not_lt.mp hti
    rw [List.getD_eq_default (a.map (fun byT => byT.map (fun byD => byD.map
      (fun row => applyPerm p row 0)))) [] (by simpa using hge),
      List.getD_eq_default a [] hge]
    simp

theorem valueAt_sortbyAsc_lat (g : Grid) (hnd : (latAxis g).Nodup) (v : String)
    (t : ℚ) (d : Option ℚ) (la lo : ℚ) :
    valueAt (sortbyAsc g "latitude") v t d la lo = valueAt g v t d la lo := by
  cases g with
  | d2 time lat lon vars =>
    have hnd' : lat.Nodup := hnd
    rw [sortbyAsc_d2_lat]
    simp only [valueAt, lookupVar_mapVals]
    cases hlk : lookupVar vars v with
    | none => rfl
    | some a =>
      simp only [Option.map_some', Option.some_bind]
      cases ht : idxOfQ t time with
      | none => rfl
      | some ti =>
        simp only [Option.some_bind]
        cases hla2 : idxOfQ la (applyPerm (argsortIdx lat) lat 0) with
        | none => rw [idxOfQ_applyPerm_none (argsort_perm lat) hla2]; rfl
        | some j =>
          obtain ⟨hjp, hold⟩ := idxOfQ_applyPerm_some hnd' (argsort_perm lat) hla2
          rw [hold]
          simp only [Option.some_bind]
          cases hlo2 : idxOfQ lo lon with
          | none => rfl
          | some loi =>
            simp only [Option.map_some']
            congr 1
            exact valAt3_lat_perm a (argsortIdx lat) ti j loi hjp
  | d3 time depth lat lon vars =>
    have hnd' : lat.Nodup := hnd
    rw [sortbyAsc_d3_lat]
    cases d with
    | none => rfl
    | some dv =>
      simp only [valueAt, lookupVar_mapVals, Option.some_bind]
      cases hlk : lookupVar vars v with
      | none => rfl
      | some a =>
        simp only [Option.map_some', Option.some_bind]
        cases ht : idxOfQ t time with
        | none => rfl
        | some ti =>
          simp only [Option.some_bind]
          cases hd2 : idxOfQ dv depth with
          | none => rfl
          | some di =>
            simp only [Option.some_bind]
            cases hla2 : idxOfQ la (applyPerm (argsortIdx lat) lat 0) with
            | none => rw [idxOfQ_applyPerm_none (argsort_perm lat) hla2]; rfl
            | some j =>
              obtain ⟨hjp, hold⟩ := idxOfQ_applyPerm_some hnd' (argsort_perm lat) hla2
              rw [hold]
              simp only [Option.some_bind]
              cases hlo2 : idxOfQ lo lon with
              | none => rfl
              | some loi =>
                simp only [Option.map_some']
                congr 1
                exact valAt4_lat_perm a (argsortIdx lat) ti di j loi hjp

theorem valueAt_sortbyAsc_lon (g : Grid) (hnd : (lonAxis g).Nodup) (v : String)
    (t : ℚ) (d : Option ℚ) (la lo : ℚ) :
    valueAt (sortbyAsc g "longitude") v t d la lo = valueAt g v t d la lo := by
  cases g with
  | d2 time lat lon vars =>
    have hnd' : lon.Nodup := hnd
    rw [sortbyAsc_d2_lon]
    simp only [valueAt, lookupVar_mapVals]
    cases hlk : lookupVar vars v with
    | none => rfl
    | some a =>
      simp only [Option.map_some', Option.some_bind]
      cases ht : idxOfQ t time with
      | none => rfl
      | some ti =>
        simp only [Option.some_bind]
        cases hla2 : idxOfQ la lat with
        | none => rfl
        | some lai =>
          simp only [Option.some_bind]
          cases hlo2 : idxOfQ lo (applyPerm (argsortIdx lon) lon 0) with
          | none => rw [idxOfQ_applyPerm_none (argsort_perm lon) hlo2]; rfl
          | some j =>
            obtain ⟨hjp, hold⟩ := idxOfQ_applyPerm_some hnd' (argsort_perm lon) hlo2
            rw [hold]
            simp only [Option.map_some']
            congr 1
            exact valAt3_lon_perm a (argsortIdx lon) ti lai j hjp
  | d3 time depth lat lon vars =>
    have hnd' : lon.Nodup := hnd
    rw [sortbyAsc_d3_lon]
    cases d with
    | none => rfl
    | some dv =>
      simp only [valueAt, lookupVar_mapVals, Option.some_bind]
      cases hlk : lookupVar vars v with
      | none => rfl
      | some a =>
        simp only [Option.map_some', Option.some_bind]
        cases ht : idxOfQ t time with
        | none => rfl
        | some ti =>
          simp only [Option.some_bind]
          cases hd2 : idxOfQ dv depth with
          | none => rfl
          | some di =>
            simp only [Option.some_bind]
            cases hla2 : idxOfQ la lat with
            | none => rfl
            | some lai =>
              simp only [Option.some_bind]
              cases hlo2 : idxOfQ lo (applyPerm (argsortIdx lon) lon 0) with
              | none => rw [idxOfQ_applyPerm_none (argsort_perm lon) hlo2]; rfl
              | some j =>
                obtain ⟨hjp, hold⟩ := idxOfQ_applyPerm_some hnd' (argsort_perm lon) hlo2
                rw [hold]
                simp only [Option.map_some']
                congr 1
                exact valAt4_lon_perm a (argsortIdx lon) ti di lai j hjp

theorem sort_dimension_char (g : Grid) (dim : String) (coords : List ℚ)
    (hax : axisCoords g dim = some coords) :
    sort_dimension g dim =
      match unsortedCheck coords with
      | none => none
      | some true => some (sortbyAsc g dim)
      | some false => some g := by
  unfold sort_dimension
  rw [hax]

theorem sort_dimension_lat_cases {g g' : Grid}
    (h : sort_dimension g "latitude" = some g') :
    (unsortedCheck (latAxis g) = some true ∧ g' = sortbyAsc g "latitude") ∨
    (unsortedCheck (latAxis g) = some false ∧ g' = g) := by
  rw [sort_dimension_char g "latitude" (latAxis g) (axisCoords_lat g)] at h
  cases hc : unsortedCheck (latAxis g) with
  | none => rw [hc] at h; cases h
  | some b =>
    rw [hc] at h
    cases b with
    | true =>
      left
      refine ⟨rfl, ?_⟩
      injection h with h1
      exact h1.symm
    | false =>
      right
      refine ⟨rfl, ?_⟩
      injection h with h1
      exact h1.symm

theorem sort_dimension_lon_cases {g g' : Grid}
    (h : sort_dimension g "longitude" = some g') :
    (unsortedCheck (lonAxis g) = some true ∧ g' = sortbyAsc g "longitude") ∨
    (unsortedCheck (lonAxis g) = some false ∧ g' = g) := by
  rw [sort_dimension_char g "longitude" (lonAxis g) (axisCoords_lon g)] at h
  cases hc : unsortedCheck (lonAxis g) with
  | none => rw [hc] at h; cases h
  | some b =>
    rw [hc] at h
    cases b with
    | true =>
      left
      refine ⟨rfl, ?_⟩
      injection h with h1
      exact h1.symm
    | false =>
      right
      refine ⟨rfl, ?_⟩
      injection h with h1
      exact h1.symm

theorem latAxis_sortbyAsc_lat (g : Grid) :
    latAxis (sortbyAsc g "latitude") = applyPerm (argsortIdx (latAxis g)) (latAxis g) 0 := by
  cases g <;> rfl

theorem lonAxis_sortbyAsc_lon (g : Grid) :
    lonAxis (sortbyAsc g "longitude") = applyPerm (argsortIdx (lonAxis g)) (lonAxis g) 0 := by
  cases g <;> rfl

theorem lonAxis_sortbyAsc_lat (g : Grid) :
    lonAxis (sortbyAsc g "latitude") = lonAxis g := by
  cases g <;> rfl

theorem lonAxis_sort_dimension_lat {g g' : Grid}
    (h : sort_dimension g "latitude" = some g') : lonAxis g' = lonAxis g := by
  rcases sort_dimension_lat_cases h with ⟨_, rfl⟩ | ⟨_, rfl⟩
  · exact lonAxis_sortbyAsc_lat g
  · rfl

theorem valueAt_sort_dimension_lat {g g' : Grid} (hnd : (latAxis g).Nodup)
    (h : sort_dimension g "latitude" = some g') (v : String) (t : ℚ) (d : Option ℚ)
    (la lo : ℚ) : valueAt g' v t d la lo = valueAt g v t d la lo := by
  rcases sort_dimension_lat_cases h with ⟨_, rfl⟩ | ⟨_, rfl⟩
  · exact valueAt_sortbyAsc_lat g hnd v t d la lo
  · rfl

theorem valueAt_sort_dimension_lon {g g' : Grid} (hnd : (lonAxis g).Nodup)
    (h : sort_dimension g "longitude" = some g') (v : String) (t : ℚ) (d : Option ℚ)
    (la lo : ℚ) : valueAt g' v t d la lo = valueAt g v t d la lo := by
  rcases sort_dimension_lon_cases h with ⟨_, rfl⟩ | ⟨_, rfl⟩
  · exact valueAt_sortbyAsc_lon g hnd v t d la lo
  · rfl

theorem unsortedCheck_eq_none_iff {coords : List ℚ} :
    unsortedCheck coords = none ↔ coords = [] := by
  cases coords <;> simp [unsortedCheck]

theorem sortbyAsc_sorted_lat (g : Grid) (hwf : wellFormed g = true)
    (hs : (latAxis g).Sorted (· ≤ ·)) : sortbyAsc g "latitude" = g := by
  cases g with
  | d2 time lat lon vars =>
    have hs' : lat.Sorted (· ≤ ·) := hs
    rw [sortbyAsc_d2_lat, argsort_of_sorted hs', applyPerm_range]
    simp only [wellFormed, List.all_eq_true, Bool.and_eq_true, beq_iff_eq] at hwf
    congr 1
    unfold mapVals
    apply map_id_of_mem
    intro w hw
    have hmap : w.2.map (fun byT => applyPerm (List.range lat.length) byT []) = w.2 := by
      apply map_id_of_mem
      intro byT hbyT
      have hlen : byT.length = lat.length := ((hwf w hw).2 byT hbyT).1
      rw [← hlen]
      exact applyPerm_range byT []
    simp [hmap]
  | d3 time depth lat lon vars =>
    have hs' : lat.Sorted (· ≤ ·) := hs
    rw [sortbyAsc_d3_lat, argsort_of_sorted hs', applyPerm_range]
    simp only [wellFormed, List.all_eq_true, Bool.and_eq_true, beq_iff_eq] at hwf
    congr 1
    unfold mapVals
    apply map_id_of_mem
    intro w hw
    have hmap : w.2.map (fun byT => byT.map
        (fun byD => applyPerm (List.range lat.length) byD [])) = w.2 := by
      apply map_id_of_mem
      intro byT hbyT
      apply map_id_of_mem
      intro byD hbyD
      have hlen : byD.length = lat.length :=
        (((hwf w hw).2 byT hbyT).2 byD hbyD).1
      rw [← hlen]
      exact applyPerm_range byD []
    simp [hmap]

theorem sortbyAsc_sorted_lon (g : Grid) (hwf : wellFormed g = true)
    (hs : (lonAxis g).Sorted (· ≤ ·)) : sortbyAsc g "longitude" = g := by
  cases g with
  | d2 time lat lon vars =>
    have hs' : lon.Sorted (· ≤ ·) := hs
    rw [sortbyAsc_d2_lon, argsort_of_sorted hs', applyPerm_range]
    simp only [wellFormed, List.all_eq_true, Bool.and_eq_true, beq_iff_eq] at hwf
    congr 1
    unfold mapVals
    apply map_id_of_mem
    intro w hw
    have hmap : w.2.map (fun byT => byT.map
        (fun row => applyPerm (List.range lon.length) row 0)) = w.2 := by
      apply map_id_of_mem
      intro byT hbyT
      apply map_id_of_mem
      intro row hrow
      have hlen : row.length = lon.length :=
        ((hwf w hw).2 byT hbyT).2 row hrow
      rw [← hlen]
      exact applyPerm_range row 0
    simp [hmap]
  | d3 time depth lat lon vars =>
    have hs' : lon.Sorted (· ≤ ·) := hs
    rw [sortbyAsc_d3_lon, argsort_of_sorted hs', applyPerm_range]
    simp only [wellFormed, List.all_eq_true, Bool.and_eq_true, beq_iff_eq] at hwf
    congr 1
    unfold mapVals
    apply map_id_of_mem
    intro w hw
    have hmap : w.2.map (fun byT => byT.map (fun byD => byD.map
        (fun row => applyPerm (List.range lon.length) row 0))) = w.2 := by
      apply map_id_of_mem
      intro byT hbyT
      apply map_id_of_mem
      intro byD hbyD
      apply map_id_of_mem
      intro row hrow
      have hlen : row.length = lon.length :=
        (((hwf w hw).2 byT hbyT).2 byD hbyD).2 row hrow
      rw [← hlen]
      exact applyPerm_range row 0
    simp [hmap]

theorem sort_dimension_sorted_lat (g : Grid) (hwf : wellFormed g = true)
    (hne : latAxis g ≠ []) (hs : (latAxis g).Sorted (· ≤ ·)) :
    sort_dimension g "latitude" = some g := by
  rw [sort_dimension_char g "latitude" (latAxis g) (axisCoords_lat g)]
  cases hc : unsortedCheck (latAxis g) with
  | none => exact absurd (unsortedCheck_eq_none_iff.mp hc) hne
  | some b =>
    cases b with
    | true => rw [sortbyAsc_sorted_lat g hwf hs]
    | false => rfl

theorem sort_dimension_sorted_lon (g : Grid) (hwf : wellFormed g = true)
    (hne : lonAxis g ≠ []) (hs : (lonAxis g).Sorted (· ≤ ·)) :
    sort_dimension g "longitude" = some g := by
  rw [sort_dimension_char g "longitude" (lonAxis g) (axisCoords_lon g)]
  cases hc : unsortedCheck (lonAxis g) with
  | none => exact absurd (unsortedCheck_eq_none_iff.mp hc) hne
  | some b =>
    cases b with
    | true => rw [sortbyAsc_sorted_lon g hwf hs]
    | false => rfl

theorem findVarE_ok {α : Type _} {gvars : List (String × α)} {v : String}
    {c : String × α} (h : findVarE gvars v = .ok c) :
    c.1 = v ∧ lookupVar gvars v = some c.2 := by
  unfold findVarE at h
  cases hl : lookupVar gvars v with
  | none => rw [hl] at h; cases h
  | some a =>
    rw [hl] at h
    injection h with h1
    subst h1
    exact ⟨rfl, rfl⟩

theorem findVarE_isOk {α : Type _} {gvars : List (String × α)} {v : String}
    (h : (lookupVar gvars v).isSome) : ∃ c, findVarE gvars v = .ok c := by
  cases hl : lookupVar gvars v with
  | none => rw [hl] at h; simp at h
  | some a => exact ⟨(v, a), by unfold findVarE; rw [hl]⟩

theorem range'_map_getD (xs : List ℚ) :
    ∀ (k lo : ℕ), lo + k ≤ xs.length →
      (List.range' lo k).map (fun i => xs.getD i 0) = (xs.drop lo).take k := by
  intro k
  induction k with
  | zero => intro lo _; simp
  | succ k ih =>
    intro lo hle
    have hlo : lo < xs.length := by omega
    rw [List.range'_succ, List.map_cons, List.drop_eq_getElem_cons hlo,
      List.take_succ_cons, List.getD_eq_getElem xs 0 hlo, ih (lo + 1) (by omega)]

theorem filter_eq_take_countP {p : ℚ → Bool}
    (hdc : ∀ a b : ℚ, a ≤ b → p b = true → p a = true) :
    ∀ {xs : List ℚ}, xs.Sorted (· ≤ ·) → xs.filter p = xs.take (xs.countP p) := by
  intro xs
  induction xs with
  | nil => intro _; rfl
  | cons x xs ih =>
    intro hsort
    have hx := (List.sorted_cons.mp hsort).1
    have hxs := (List.sorted_cons.mp hsort).2
    by_cases hp : p x = true
    · rw [List.filter_cons_of_pos hp, List.countP_cons_of_pos _ _ hp,
        List.take_succ_cons, ih hxs]
    · have hall : ∀ b ∈ xs, ¬ p b = true := fun b hb hpb => hp (hdc x b (hx b hb) hpb)
      rw [List.filter_cons_of_neg hp, List.countP_cons_of_neg _ _ hp,
        List.filter_eq_nil_iff.mpr hall,
        show xs.countP p = 0 from List.countP_eq_zero.mpr hall]
      rfl

theorem drop_countP_eq_filter_not {p : ℚ → Bool}
    (hdc : ∀ a b : ℚ, a ≤ b → p b = true → p a = true) :
    ∀ {xs : List ℚ}, xs.Sorted (· ≤ ·) →
      xs.drop (xs.countP p) = xs.filter (fun t => ! p t) := by
  intro xs
  induction xs with
  | nil => intro _; rfl
  | cons x xs ih =>
    intro hsort
    have hx := (List.sorted_cons.mp hsort).1
    have hxs := (List.sorted_cons.mp hsort).2
    by_cases hp : p x = true
    · rw [List.countP_cons_of_pos _ _ hp, List.drop_succ_cons, ih hxs,
        List.filter_cons_of_neg (by simp [hp])]
    · have hall : ∀ b ∈ xs, ¬ p b = true := fun b hb hpb => hp (hdc x b (hx b hb) hpb)
      have hpx : p x = false := by
        cases hpb : p x
        · rfl
        · exact absurd hpb hp
      rw [List.countP_cons_of_neg _ _ hp,
        show xs.countP p = 0 from List.countP_eq_zero.mpr hall, List.drop_zero,
        List.filter_cons_of_pos (by simp [hpx]),
        List.filter_eq_self.mpr (fun b hb => by
          have : p b = false := by
            cases hpb : p b
            · rfl
            · exact absurd hpb (hall b hb)
          simp [this])]

theorem sliceTimes_eq_filter (time : List ℚ) (s e : ℚ)
    (hsort : time.Sorted (· ≤ ·)) :
    (sliceIdx time s e).map (fun i => time.getD i 0) =
      time.filter (fun t => decide (s ≤ t) && decide (t ≤ e)) := by
  have hdc1 : ∀ a b : ℚ, a ≤ b → decide (b < s) = true → decide (a < s) = true := by
    intro a b hab hb
    simp only [decide_eq_true_eq] at hb ⊢
    exact lt_of_le_of_lt hab hb
  have hdc2 : ∀ a b : ℚ, a ≤ b → decide (b ≤ e) = true → decide (a ≤ e) = true := by
    intro a b hab hb
    simp only [decide_eq_true_eq] at hb ⊢
    exact le_trans hab hb
  unfold sliceIdx
  rcases le_or_lt s e with hse | hes
  · have hlole : time.countP (fun t => decide (t < s)) ≤
        time.countP (fun t => decide (t ≤ e)) := by
      apply List.countP_mono_left
      intro t _ ht
      simp only [decide_eq_true_eq] at ht ⊢
      exact le_of_lt (lt_of_lt_of_le ht hse)
    have hhile : time.countP (fun t => decide (t ≤ e)) ≤ time.length :=
      List.countP_le_length _
    rw [range'_map_getD time _ _ (by omega), List.take_drop,
      show time.countP (fun t => decide (t < s)) +
          (time.countP (fun t => decide (t ≤ e)) -
            time.countP (fun t => decide (t < s))) =
          time.countP (fun t => decide (t ≤ e)) from by omega,
      show time.take (time.countP (fun t => decide (t ≤ e))) =
          time.filter (fun t => decide (t ≤ e)) from
        (filter_eq_take_countP hdc2 hsort).symm]
    have hys : (time.filter (fun t => decide (t ≤ e))).Sorted (· ≤ ·) :=
      List.Pairwise.sublist (List.filter_sublist time) hsort
    have hcount : time.countP (fun t => decide (t < s)) =
        (time.filter (fun t => decide (t ≤ e))).countP (fun t => decide (t < s)) := by
      rw [List.countP_filter]
      apply List.countP_congr
      intro t _
      simp only [Bool.and_eq_true, decide_eq_true_eq]
      constructor
      · intro hb
        exact ⟨hb, le_of_lt (lt_of_lt_of_le hb hse)⟩
      · intro hb
        exact hb.1
    rw [hcount, drop_countP_eq_filter_not hdc1 hys, List.filter_filter]
    apply List.filter_congr
    intro x _
    have h1 : (!decide (x < s)) = decide (s ≤ x) := by
      rw [← decide_not]
      exact decide_eq_decide.mpr not_lt
    rw [h1]
  · have hle2 : time.countP (fun t => decide (t ≤ e)) ≤
        time.countP (fun t => decide (t < s)) := by
      apply List.countP_mono_left
      intro t _ ht
      simp only [decide_eq_true_eq] at ht ⊢
      exact lt_of_le_of_lt ht hes
    rw [show time.countP (fun t => decide (t ≤ e)) -
        time.countP (fun t => decide (t < s)) = 0 from by omega]
    symm
    rw [show (List.range' (time.countP fun t => decide (t < s)) 0).map
        (fun i => time.getD i 0) = [] from rfl]
    rw [List.filter_eq_nil_iff]
    intro t _ hP
    simp only [Bool.and_eq_true, decide_eq_true_eq] at hP
    exact absurd (le_trans hP.1 hP.2) (not_le.mpr hes)

/-! Theorems settling the specification claims. -/

/-- C3 (amended): for every non-empty axis, `.sel(method="nearest")` selects
the grid index whose coordinate minimizes the absolute distance to the
requested value, independently per axis; a tie is broken to the HIGHEST
index (pandas keeps the lower neighbour only when it is strictly closer on
a monotonically increasing index); a query coordinate exactly equal to a
grid coordinate of a duplicate-free axis matches that exact index. -/
theorem spec_c3_amended (coords : List ℚ) (x : ℚ) (hne : coords ≠ []) :
    nearestIdx x coords < coords.length ∧
    (∀ i < coords.length,
      |coords.getD (nearestIdx x coords) 0 - x| ≤ |coords.getD i 0 - x|) ∧
    (∀ i < coords.length,
      |coords.getD i 0 - x| ≤ |coords.getD (nearestIdx x coords) 0 - x| →
        i ≤ nearestIdx x coords) ∧
    (coords.Nodup → ∀ i < coords.length, coords.getD i 0 = x →
      nearestIdx x coords = i) :=
  ⟨nearestIdx_lt_length x coords hne, nearestIdx_min x coords,
   nearestIdx_rightmost x coords,
   fun hnd i hi hx => nearestIdx_exact x coords hnd i hi hx⟩

/-- Witness for C3 (amended) at the axis `[40, 40.1, 40.2]`: the exact
coordinate `40.1` matches its own index 1. -/
theorem spec_c3_amended_witness :
    nearestIdx (401/10 : ℚ) [40, 401/10, 201/5] = 1 := by
  have h := spec_c3_amended [40, 401/10, 201/5] (401/10) (by decide)
  exact h.2.2.2 (by decide) 1 (by decide) (by decide)

/-- Counterexample to C3 as stated: latitude `40.05` against the axis
`[40.0, 40.1, 40.2]` is an exact distance tie, and the nearest lookup
matches index 1, not index 0 as the claimed lowest-index tie-break
requires. -/
theorem spec_c3_counterexample :
    nearestIdx (801/20 : ℚ) [40, 401/10, 201/5] = 1 ∧
    |(40 : ℚ) - 801/20| = |(401/10 : ℚ) - 801/20| := by
  constructor
  · rfl
  · decide

/-- C5: whenever the temporal-points cell succeeds on a dataset with a
non-empty time axis, it produces a single table with exactly one row per
input query: the `Date_dataset` column has one entry per query, each entry
an actual time coordinate of the dataset (which may differ from the
requested date), and each variable column has one value per query, with
the columns named by the requested variables in order. -/
theorem spec_c5 (g : Grid) (vars : List String) (qs : List Query)
    (tbl : TemporalTable) (hne : timeAxis g ≠ [])
    (h : runTemporal g vars qs = .ok tbl) :
    tbl.queries = qs ∧
    tbl.dateDataset.length = qs.length ∧
    (∀ x ∈ tbl.dateDataset, x ∈ timeAxis g) ∧
    tbl.varColumns.map (fun c => c.1) = vars ∧
    ∀ c ∈ tbl.varColumns, c.2.length = qs.length := by
  unfold runTemporal at h
  cases houter : collectE (varColumnE g qs) vars with
  | error e => rw [houter] at h; cases h
  | ok cols =>
    rw [houter] at h
    injection h with h1
    rw [← h1]
    have hf2 := collectE_forall2 houter
    refine ⟨rfl, by simp, ?_, ?_, ?_⟩
    · intro x hx
      simp only [List.mem_map] at hx
      obtain ⟨q, _, rfl⟩ := hx
      have hlt := nearestIdx_lt_length q.date (timeAxis g) hne
      rw [List.getD_eq_getElem _ _ hlt]
      exact List.getElem_mem _
    · exact map_eq_of_forall2 hf2 (fun v c hc => (varColumnE_ok hc).1)
    · intro c hc
      obtain ⟨v, _, hvc⟩ := forall2_exists_left hf2 c hc
      have hcol := (varColumnE_ok hvc).2
      have := (collectE_forall2 hcol).length_eq
      exact this.symm

/-- Witness for C5: the temporal-points cell on `g2w`, variables `uo` and
`vo`, queries `[qw, qFar]`, yields the table `tblw`, which has the shape
the theorem describes. -/
theorem spec_c5_witness :
    tblw.queries = [qw, qFar] ∧
    tblw.dateDataset.length = [qw, qFar].length ∧
    (∀ x ∈ tblw.dateDataset, x ∈ timeAxis g2w) ∧
    tblw.varColumns.map (fun c => c.1) = ["uo", "vo"] ∧
    ∀ c ∈ tblw.varColumns, c.2.length = [qw, qFar].length :=
  spec_c5 g2w ["uo", "vo"] [qw, qFar] tblw (by decide) (by rfl)

/-- C6: depth participation is decided by the dataset.  For every 3D dataset
a query whose `Depth` entry is absent fails with the missing-depth error;
for every 2D dataset the query's depth field is ignored entirely (the
sample does not depend on it) and, provided the requested variable exists,
no error is raised. -/
theorem spec_c6 :
    (∀ (time depth lat lon : List ℚ)
        (vars : List (String × List (List (List (List ℚ)))))
        (v : String) (q : Query), q.depth = none →
        sampleVar (Grid.d3 time depth lat lon vars) v q =
          .error .missingDepthSpec) ∧
    (∀ (time lat lon : List ℚ) (vars : List (String × List (List (List ℚ))))
        (v : String) (q : Query),
        sampleVar (Grid.d2 time lat lon vars) v q =
          sampleVar (Grid.d2 time lat lon vars) v { q with depth := none } ∧
        ((lookupVar vars v).isSome →
          ∃ y, sampleVar (Grid.d2 time lat lon vars) v q = .ok y)) := by
  constructor
  · intro time depth lat lon vars v q hd
    simp [sampleVar, hd]
  · intro time lat lon vars v q
    constructor
    · rfl
    · intro hv
      cases hl : lookupVar vars v with
      | none => rw [hl] at hv; simp at hv
      | some a =>
        exact ⟨valAt3 a (nearestIdx q.date time) (nearestIdx q.lat lat)
          (nearestIdx q.lon lon), by simp [sampleVar, hl]⟩

/-- Witness for C6: on the 3D dataset `g3w` the depth-less query fails with
the missing-depth error; on the 2D dataset `g2w` the query's supplied
depth is ignored and sampling succeeds. -/
theorem spec_c6_witness :
    sampleVar g3w "uo" qNoDepth = .error .missingDepthSpec ∧
    sampleVar g2w "uo" qw = sampleVar g2w "uo" { qw with depth := none } ∧
    ∃ y, sampleVar g2w "uo" qw = .ok y := by
  refine ⟨?_, ?_, ?_⟩
  · exact spec_c6.1 _ _ _ _ _ "uo" qNoDepth rfl
  · exact (spec_c6.2 _ _ _ _ "uo" qw).1
  · exact (spec_c6.2 _ _ _ _ "uo" qw).2 (by decide)

/-- C7 (amended): the code performs no out-of-range check.  A requested
coordinate at or beyond the upper end of a sorted axis is matched to the
boundary index, and sampling succeeds silently with the boundary value;
no out-of-range failure exists. -/
theorem spec_c7_amended (time lat lon : List ℚ)
    (vars : List (String × List (List (List ℚ)))) (v : String) (q : Query)
    (hne : lat ≠ []) (hsort : lat.Sorted (· ≤ ·)) (hout : ∀ c ∈ lat, c ≤ q.lat)
    (hv : (lookupVar vars v).isSome) :
    nearestIdx q.lat lat = lat.length - 1 ∧
    ∃ y, sampleVar (Grid.d2 time lat lon vars) v q = .ok y := by
  refine ⟨nearestIdx_ge_all q.lat lat hne hsort hout, ?_⟩
  cases hl : lookupVar vars v with
  | none => rw [hl] at hv; simp at hv
  | some a =>
    exact ⟨valAt3 a (nearestIdx q.date time) (nearestIdx q.lat lat)
      (nearestIdx q.lon lon), by simp [sampleVar, hl]⟩

/-- Witness for C7 (amended): latitude 100 against `[40, 41, 42]` matches
the boundary index 2 and sampling on `g2w` succeeds. -/
theorem spec_c7_amended_witness :
    nearestIdx (100 : ℚ) [40, 41, 42] = 2 ∧
    ∃ y, sampleVar g2w "uo" qFar = .ok y := by
  have h := spec_c7_amended [0, 1, 2, 3, 4] [40, 41, 42] [5, 6, 7]
    [("uo", List.replicate 5 [[1, 2, 3], [4, 5, 6], [7, 8, 9]]),
     ("vo", List.replicate 5 [[10, 20, 30], [40, 50, 60], [70, 80, 90]])]
    "uo" qFar (by decide) (by decide) (by decide) (by decide)
  exact h

/-- Counterexample to C7 as stated: the query latitude 100 lies 58 grid
spacings beyond the span `[40, 42]` of `g2w`, yet sampling does not fail:
it silently returns the value at the boundary latitude. -/
theorem spec_c7_counterexample :
    sampleVar g2w "uo" qFar = .ok 8 := by rfl

/-- C8 (amended): there is no per-pair failure collection.  If any
(variable, query) pair fails, the whole temporal-points dataframe for that
dataset is aborted with that kind of error and no rows are produced. -/
theorem spec_c8_amended (g : Grid) (vars : List String) (qs : List Query)
    (h : ∃ v ∈ vars, ∃ q ∈ qs, ∃ e, sampleVar g v q = .error e) :
    ∃ e, runTemporal g vars qs = .error e := by
  obtain ⟨v, hv, q, hq, e, he⟩ := h
  obtain ⟨e', he'⟩ :=
    collectE_error_of_mem (f := fun q' => sampleVar g v q') hq ⟨e, he⟩
  obtain ⟨e'', he''⟩ :=
    collectE_error_of_mem (f := varColumnE g qs) hv
      ⟨e', by unfold varColumnE; rw [he']⟩
  exact ⟨e'', by unfold runTemporal; rw [he'']⟩

/-- Witness for C8 (amended): requesting the absent variable `missing`
makes the whole batch on `g2w` abort with an error. -/
theorem spec_c8_amended_witness :
    ∃ e, runTemporal g2w ["uo", "missing"] qs10 = .error e :=
  spec_c8_amended g2w ["uo", "missing"] qs10
    ⟨"missing", by decide, qw, by decide, .unknownVariable "missing", by rfl⟩

/-- Counterexample to C8 as stated: a batch of ten queries where an absent
variable is requested does not complete with nine rows and one reported
failure: the run aborts with the `KeyError`, producing no table at all. -/
theorem spec_c8_counterexample :
    runTemporal g2w ["uo", "missing"] qs10 =
      .error (.unknownVariable "missing") ∧
    qs10.length = 10 := ⟨by rfl, by rfl⟩

/-- C9: evaluation of both batch loops at a two-dataset configuration.  The
temporal-points loop pairs each output name with its own dataset id, but
the timeseries loop opens the stale global `dataset_id` — the last id left
behind by the temporal cell — for every entry, so the output named `outB`
of the temporal run and both timeseries outputs are all drawn from dataset
`dsB`; with no global bound, the timeseries loop raises `NameError`. -/
theorem spec_c9_failing :
    temporalOpenedIds [("dsA", "outA"), ("dsB", "outB")] =
      [("outA", "dsA"), ("outB", "dsB")] ∧
    timeseriesOpenedIds (globalIdAfterTemporal [("dsA", "outA"), ("dsB", "outB")])
      [("dsA", "outA"), ("dsB", "outB")] =
      some [("outA", "dsB"), ("outB", "dsB")] ∧
    timeseriesOpenedIds none [("dsA", "outA"), ("dsB", "outB")] = none :=
  ⟨rfl, rfl, rfl⟩

/-- C1 (amended): the rename loop canonicalizes `lat` and `lon` and leaves
other names unchanged; `sort_dimension` sorts a latitude or longitude axis
exactly when the code's inversion test — first coordinate at least every
coordinate but the last — fires, and then the resulting axis is strictly
ascending provided the coordinates are duplicate-free.  An axis failing the
test, including non-ascending ones such as `[1, 3, 2]`, is returned in its
original order. -/
theorem spec_c1_amended :
    (canonName "lat" = "latitude" ∧ canonName "lon" = "longitude" ∧
      ∀ s, s ≠ "lat" → s ≠ "lon" → canonName s = s) ∧
    (∀ (g g' : Grid), (latAxis g).Nodup → sort_dimension g "latitude" = some g' →
      (unsortedCheck (latAxis g) = some true → (latAxis g').Sorted (· < ·)) ∧
      (unsortedCheck (latAxis g) = some false → g' = g)) ∧
    (∀ (g g' : Grid), (lonAxis g).Nodup → sort_dimension g "longitude" = some g' →
      (unsortedCheck (lonAxis g) = some true → (lonAxis g').Sorted (· < ·)) ∧
      (unsortedCheck (lonAxis g) = some false → g' = g)) := by
  refine ⟨⟨rfl, rfl, ?_⟩, ?_, ?_⟩
  · intro s h1 h2
    unfold canonName
    rw [if_neg h2, if_neg h1]
  · intro g g' hnd h
    rcases sort_dimension_lat_cases h with ⟨hc, rfl⟩ | ⟨hc, rfl⟩
    · refine ⟨fun _ => ?_, fun hfalse => ?_⟩
      · rw [latAxis_sortbyAsc_lat]
        exact sortKeys_sorted_lt hnd
      · rw [hc] at hfalse
        cases hfalse
    · refine ⟨fun htrue => ?_, fun _ => rfl⟩
      rw [hc] at htrue
      cases htrue
  · intro g g' hnd h
    rcases sort_dimension_lon_cases h with ⟨hc, rfl⟩ | ⟨hc, rfl⟩
    · refine ⟨fun _ => ?_, fun hfalse => ?_⟩
      · rw [lonAxis_sortbyAsc_lon]
        exact sortKeys_sorted_lt hnd
      · rw [hc] at hfalse
        cases hfalse
    · refine ⟨fun htrue => ?_, fun _ => rfl⟩
      rw [hc] at htrue
      cases htrue

/-- Witness for C1 (amended): the descending latitude axis of `gScen` passes
the inversion test, and the sorted axis of its normal form is strictly
ascending; the rename loop maps `lat` to `latitude`. -/
theorem spec_c1_amended_witness :
    (latAxis gScenNorm).Sorted (· < ·) ∧ canonName "lat" = "latitude" := by
  have h := spec_c1_amended
  exact ⟨(h.2.1 gScen gScenNorm (by decide) (by decide)).1 (by decide), h.1.1⟩

/-- Counterexample to C1 as stated: the latitude axis `[1, 3, 2]` of `gCex`
is non-ascending, yet normalization returns the dataset unchanged — the
axis is still `[1, 3, 2]`, not strictly ascending — because the inversion
test compares only the first coordinate against the others. -/
theorem spec_c1_counterexample :
    latAxis gCex = [1, 3, 2] ∧
    ¬ (latAxis gCex).Sorted (· ≤ ·) ∧
    normalizeAxes gCex = some gCex := by
  refine ⟨rfl, by decide, by decide⟩

/-- C2: axis normalization is a pure index permutation.  For every dataset
with duplicate-free latitude and longitude coordinates, sampling any
variable at any exact physical point (time, optional depth, latitude
value, longitude value) after normalization returns exactly the value
sampled before normalization. -/
theorem spec_c2 (g g' : Grid) (hla : (latAxis g).Nodup) (hlo : (lonAxis g).Nodup)
    (h : normalizeAxes g = some g') (v : String) (t : ℚ) (d : Option ℚ) (la lo : ℚ) :
    valueAt g' v t d la lo = valueAt g v t d la lo := by
  unfold normalizeAxes at h
  cases h1 : sort_dimension g "latitude" with
  | none => rw [h1] at h; cases h
  | some g1 =>
    rw [h1] at h
    have e1 := valueAt_sort_dimension_lat hla h1 v t d la lo
    have hlo1 : lonAxis g1 = lonAxis g := lonAxis_sort_dimension_lat h1
    have e2 := valueAt_sort_dimension_lon (by rw [hlo1]; exact hlo) h v t d la lo
    rw [e2, e1]

/-- Witness for C2 at the spec's concrete scenario: latitude `[42, 41, 40]`
descending, longitude `[5, 6, 7]`, `uo = 3/2` at `(lat = 42, lon = 6)`;
after normalization the sample at the same physical point still returns
`3/2`, as does the sample before normalization. -/
theorem spec_c2_witness :
    valueAt gScenNorm "uo" 0 none 42 6 = some (3/2) ∧
    valueAt gScen "uo" 0 none 42 6 = some (3/2) := by
  have h := spec_c2 gScen gScenNorm (by decide) (by decide) (by decide) "uo" 0 none 42 6
  exact ⟨h.trans (by decide), by decide⟩

/-- C10: `sort_dimension` is a no-op on an already strictly ascending
latitude or longitude axis with at least two elements, for any well-formed
dataset — the dataset comes back unchanged.  (For axes of length two the
inversion test fires vacuously, but the stable ascending sort it triggers
is the identity permutation.) -/
theorem spec_c10 (g : Grid) (hwf : wellFormed g = true) :
    (2 ≤ (latAxis g).length → (latAxis g).Sorted (· < ·) →
      sort_dimension g "latitude" = some g) ∧
    (2 ≤ (lonAxis g).length → (lonAxis g).Sorted (· < ·) →
      sort_dimension g "longitude" = some g) := by
  constructor
  · intro hlen hs
    apply sort_dimension_sorted_lat g hwf ?_ hs.le_of_lt
    intro hnil
    rw [hnil] at hlen
    simp at hlen
  · intro hlen hs
    apply sort_dimension_sorted_lon g hwf ?_ hs.le_of_lt
    intro hnil
    rw [hnil] at hlen
    simp at hlen

/-- C4: in interval mode the time axis is selected as the contiguous
sub-range of coordinates within `[start, stop]` inclusive, never
nearest-matched at the endpoints; latitude, longitude (and depth when the
dataset has a depth axis) are nearest-matched once per query; the series
index equals the sorted time coordinates inside the interval, every
variable column has exactly that many entries, and an empty intersection
yields an empty series rather than an error. -/
theorem spec_c4 (g : Grid) (vars : List String) (q : Query)
    (hsort : (timeAxis g).Sorted (· ≤ ·))
    (hv : ∀ v ∈ vars, hasVar g v = true)
    (hd : hasDepthAxis g = true → q.depth.isSome) :
    ∃ tbl, sampleSeries g vars q = .ok tbl ∧
      tbl.times = (timeAxis g).filter
        (fun t => decide (q.start ≤ t) && decide (t ≤ q.stop)) ∧
      tbl.times.length = (timeAxis g).countP
        (fun t => decide (q.start ≤ t) && decide (t ≤ q.stop)) ∧
      tbl.columns.map (fun c => c.1) = vars ∧
      (∀ c ∈ tbl.columns, c.2.length = tbl.times.length) ∧
      ((∀ t ∈ timeAxis g, ¬ (q.start ≤ t ∧ t ≤ q.stop)) → tbl.times = []) := by
  cases g with
  | d2 time lat lon gvars =>
    have hsort' : time.Sorted (· ≤ ·) := hsort
    obtain ⟨found, hfound⟩ :=
      collectE_ok_of_forall (f := findVarE gvars) (l := vars)
        (fun v hvm => findVarE_isOk (by simpa [hasVar] using hv v hvm))
    refine ⟨⟨(sliceIdx time q.start q.stop).map (fun i => time.getD i 0),
      found.map (fun va => (va.1, (sliceIdx time q.start q.stop).map
        (fun ti => valAt3 va.2 ti (nearestIdx q.lat lat) (nearestIdx q.lon lon))))⟩,
      ?_, ?_, ?_, ?_, ?_, ?_⟩
    · simp only [sampleSeries]
      rw [hfound]
    · exact sliceTimes_eq_filter time q.start q.stop hsort'
    · rw [sliceTimes_eq_filter time q.start q.stop hsort']
      exact (List.countP_eq_length_filter _ _).symm
    · simp only [List.map_map]
      exact map_eq_of_forall2 (collectE_forall2 hfound)
        (fun v c hc => (findVarE_ok hc).1)
    · intro c hc
      simp only [List.mem_map] at hc
      obtain ⟨va, _, rfl⟩ := hc
      simp
    · intro hall
      rw [sliceTimes_eq_filter time q.start q.stop hsort', List.filter_eq_nil_iff]
      intro t ht hP
      simp only [Bool.and_eq_true, decide_eq_true_eq] at hP
      exact hall t ht ⟨hP.1, hP.2⟩
  | d3 time depth lat lon gvars =>
    have hsort' : time.Sorted (· ≤ ·) := hsort
    obtain ⟨dv, hdv⟩ : ∃ dv, q.depth = some dv := by
      cases hq : q.depth with
      | none =>
        have hds := hd rfl
        rw [hq] at hds
        simp at hds
      | some dv => exact ⟨dv, rfl⟩
    obtain ⟨found, hfound⟩ :=
      collectE_ok_of_forall (f := findVarE gvars) (l := vars)
        (fun v hvm => findVarE_isOk (by simpa [hasVar] using hv v hvm))
    refine ⟨⟨(sliceIdx time q.start q.stop).map (fun i => time.getD i 0),
      found.map (fun va => (va.1, (sliceIdx time q.start q.stop).map
        (fun ti => valAt4 va.2 ti (nearestIdx dv depth) (nearestIdx q.lat lat)
          (nearestIdx q.lon lon))))⟩,
      ?_, ?_, ?_, ?_, ?_, ?_⟩
    · simp only [sampleSeries]
      rw [hdv, hfound]
    · exact sliceTimes_eq_filter time q.start q.stop hsort'
    · rw [sliceTimes_eq_filter time q.start q.stop hsort']
      exact (List.countP_eq_length_filter _ _).symm
    · simp only [List.map_map]
      exact map_eq_of_forall2 (collectE_forall2 hfound)
        (fun v c hc => (findVarE_ok hc).1)
    · intro c hc
      simp only [List.mem_map] at hc
      obtain ⟨va, _, rfl⟩ := hc
      simp
    · intro hall
      rw [sliceTimes_eq_filter time q.start q.stop hsort', List.filter_eq_nil_iff]
      intro t ht hP
      simp only [Bool.and_eq_true, decide_eq_true_eq] at hP
      exact hall t ht ⟨hP.1, hP.2⟩

/-- Witness for C4: the timeseries sample of `uo` on `g2w` for the interval
`[1, 3]` of `qw` succeeds with the three time steps 1, 2, 3 and a
three-entry column. -/
theorem spec_c4_witness :
    ∃ tbl, sampleSeries g2w ["uo"] qw = .ok tbl ∧
      tbl.times = (timeAxis g2w).filter
        (fun t => decide (qw.start ≤ t) && decide (t ≤ qw.stop)) ∧
      tbl.times.length = (timeAxis g2w).countP
        (fun t => decide (qw.start ≤ t) && decide (t ≤ qw.stop)) ∧
      tbl.columns.map (fun c => c.1) = ["uo"] ∧
      (∀ c ∈ tbl.columns, c.2.length = tbl.times.length) ∧
      ((∀ t ∈ timeAxis g2w, ¬ (qw.start ≤ t ∧ t ≤ qw.stop)) → tbl.times = []) :=
  spec_c4 g2w ["uo"] qw (by decide) (by decide) (by decide)

/-- Witness for C10: on the well-formed dataset `g2w`, whose latitude
`[40, 41, 42]` and longitude `[5, 6, 7]` are strictly ascending,
`sort_dimension` returns the dataset unchanged on both axes. -/
theorem spec_c10_witness :
    sort_dimension g2w "latitude" = some g2w ∧
    sort_dimension g2w "longitude" = some g2w := by
  have h := spec_c10 g2w (by decide)
  exact ⟨h.1 (by decide) (by decide), h.2 (by decide) (by decide)⟩

end Copernicus
